import Mathlib

/-!
Verification development for the PicoParser frame-extraction and decode
pipeline.  The Python source is shallowly embedded:

* the capture file is a `List Nat` of bytes; `fileSize` is its length;
* `iterFrameIdx` embeds `PicoParser.iterFrameIdx` (the length-prefix
  boundary scan over the memory-mapped view);
* foreign `LibpicoRaw` records, the assembler `__libpicoFrameToNdarray`
  with its `__removeInterp` helper, the per-frame task
  `__getFrameNdarray`, the thread-pool dispatch of
  `getFrameNdarrayByIndices`, and the aggregator `getNdarray` are
  embedded below, with numpy array semantics (copy versus foreign view,
  fancy indexing, stacking) made explicit.
-/

namespace PicoParser

/-- Little-endian unsigned 32-bit read at byte offset `idx`, embedding
the source expression `struct.unpack("<I", mmView[idx : idx + 4])[0]`.
Out-of-range reads default to byte `0`; the indexer only reads in
bounds. -/
def readLE32 (content : List Nat) (idx : Nat) : Nat :=
  content.getD idx 0 + 256 * content.getD (idx + 1) 0 +
    65536 * content.getD (idx + 2) 0 + 16777216 * content.getD (idx + 3) 0

/-- Loop body of `PicoParser.iterFrameIdx`: starting at `idx`, while
`idx + 4 <= fileSize`, read the prefix `payloadLen`; stop when
`payloadLen <= 0` or `idx + (4 + payloadLen) > fileSize`; otherwise
yield `(idx, 4 + payloadLen)` and advance by that frame length. -/
def iterFrameIdxAux (content : List Nat) (idx : Nat) : List (Nat × Nat) :=
  if h1 : idx + 4 ≤ content.length then
    if h2 : readLE32 content idx ≤ 0 ∨ idx + (4 + readLE32 content idx) > content.length then
      []
    else
      (idx, 4 + readLE32 content idx) ::
        iterFrameIdxAux content (idx + (4 + readLE32 content idx))
  else []
termination_by content.length - idx
decreasing_by
  simp only [not_or, not_le, gt_iff_lt, not_lt] at h2
  omega

/-- Embedding of `PicoParser.iterFrameIdx`: the full sequence of
`(offset, length)` pairs yielded for a mapped file `content`. -/
def iterFrameIdx (content : List Nat) : List (Nat × Nat) :=
  iterFrameIdxAux content 0

/-- Indexing algorithm transcribed from the specification text: start at
offset 0; if fewer than 4 bytes remain, stop; read the 4-byte
little-endian unsigned prefix `payloadLen`; if `payloadLen <= 0` or
`offset + 4 + payloadLen > fileSize`, stop; otherwise yield
`(offset, 4 + payloadLen)` and advance the offset by `4 + payloadLen`. -/
def specIndexAux (content : List Nat) (offset : Nat) : List (Nat × Nat) :=
  if h1 : content.length - offset < 4 then []
  else
    if h2 : readLE32 content offset ≤ 0 ∨ offset + 4 + readLE32 content offset > content.length then
      []
    else
      (offset, 4 + readLE32 content offset) ::
        specIndexAux content (offset + (4 + readLE32 content offset))
termination_by content.length - offset
decreasing_by
  simp only [not_or, not_le, gt_iff_lt, not_lt] at h2
  omega

/-- Spec-side indexer started at offset 0. -/
def specIndex (content : List Nat) : List (Nat × Nat) :=
  specIndexAux content 0

theorem iterFrameIdxAux_eq_specIndexAux (content : List Nat) :
    ∀ fuel idx, content.length - idx ≤ fuel →
      iterFrameIdxAux content idx = specIndexAux content idx := by
  intro fuel
  induction fuel with
  | zero =>
    intro idx h
    rw [iterFrameIdxAux, specIndexAux]
    have h1 : ¬ idx + 4 ≤ content.length := by omega
    have h2 : content.length - idx < 4 := by omega
    simp [h1, h2]
  | succ n ih =>
    intro idx h
    rw [iterFrameIdxAux, specIndexAux]
    by_cases h1 : idx + 4 ≤ content.length
    · have h1' : ¬ content.length - idx < 4 := by omega
      by_cases h2 : readLE32 content idx ≤ 0 ∨ idx + (4 + readLE32 content idx) > content.length
      · have h2' : readLE32 content idx ≤ 0 ∨
            idx + 4 + readLE32 content idx > content.length := by omega
        simp only [dif_pos h1, dif_neg h1', dif_pos h2, dif_pos h2']
      · have h2' : ¬ (readLE32 content idx ≤ 0 ∨
            idx + 4 + readLE32 content idx > content.length) := by omega
        simp only [dif_pos h1, dif_neg h1', dif_neg h2, dif_neg h2']
        have htail := ih (idx + (4 + readLE32 content idx)) (by omega)
        rw [htail]
    · have h2 : content.length - idx < 4 := by omega
      simp [h1, h2]

/-- C1: for every file content, the indexer's yielded sequence of
`(offset, length)` pairs is exactly the sequence computed by the
specification's algorithm: start at offset 0; stop when fewer than 4
bytes remain; read the 4-byte little-endian prefix `payloadLen`; stop
when `payloadLen <= 0` (in particular a declared payload length of 0
ends indexing at that offset, yielding nothing for it) or when
`offset + 4 + payloadLen > fileSize`; otherwise yield
`(offset, 4 + payloadLen)` and advance by `4 + payloadLen`. -/
theorem iterFrameIdx_eq_specIndex (content : List Nat) :
    iterFrameIdx content = specIndex content :=
  iterFrameIdxAux_eq_specIndexAux content content.length 0 (by omega)

/-! Frame encoding and well-formed capture files (for the tiling claim). -/

/-- The 4-byte little-endian encoding of a 32-bit value `n`. -/
def toLE32 (n : Nat) : List Nat :=
  [n % 256, n / 256 % 256, n / 65536 % 256, n / 16777216 % 256]

/-- One complete frame: 4-byte little-endian payload-length prefix
followed by the payload bytes. -/
def encodeFrame (payload : List Nat) : List Nat :=
  toLE32 payload.length ++ payload

/-- A concatenation of complete frames, as laid out in a capture file. -/
def encodeFrames (ps : List (List Nat)) : List Nat :=
  (ps.map encodeFrame).flatten

/-- A partial trailing frame: either fewer than 4 bytes remain (the
header itself is truncated), or the header is intact, declares a
positive payload length, and that declared length overruns the end of
the file. The empty remainder is the degenerate case of the first
disjunct. -/
def IsPartialFrame (rest : List Nat) : Prop :=
  rest.length < 4 ∨ (0 < readLE32 rest 0 ∧ rest.length < 4 + readLE32 rest 0)

/-- A well-formed capture file: zero or more complete frames laid out
consecutively from offset 0 (each with a nonempty payload whose length
fits the 32-bit prefix), optionally followed by one partial trailing
frame; all bytes are bytes. -/
def WellFormed (content : List Nat) : Prop :=
  ∃ ps rest,
    (∀ p ∈ ps, p ≠ [] ∧ p.length < 4294967296 ∧ ∀ b ∈ p, b < 256) ∧
    (∀ b ∈ rest, b < 256) ∧ IsPartialFrame rest ∧
    content = encodeFrames ps ++ rest

/-- The expected slice list for a layout of complete frames starting at
a given offset. -/
def frameOffsets (start : Nat) : List (List Nat) → List (Nat × Nat)
  | [] => []
  | p :: rest => (start, 4 + p.length) :: frameOffsets (start + (4 + p.length)) rest

/-- Contiguity check: each slice starts exactly where the previous one
ended (the first at the given offset) and has positive length. -/
def contiguousFrom : Nat → List (Nat × Nat) → Bool
  | _, [] => true
  | o, s :: rest => decide (s.1 = o) && decide (0 < s.2) && contiguousFrom (o + s.2) rest

theorem readLE32_toLE32 (n : Nat) (tail : List Nat) (h : n < 4294967296) :
    readLE32 (toLE32 n ++ tail) 0 = n := by
  simp [readLE32, toLE32, List.getD]
  omega

theorem readLE32_append (pre tail : List Nat) (j : Nat) :
    readLE32 (pre ++ tail) (pre.length + j) = readLE32 tail j := by
  unfold readLE32
  rw [List.getD_append_right pre tail 0 (pre.length + j) (by omega),
    List.getD_append_right pre tail 0 (pre.length + j + 1) (by omega),
    List.getD_append_right pre tail 0 (pre.length + j + 2) (by omega),
    List.getD_append_right pre tail 0 (pre.length + j + 3) (by omega)]
  have e1 : pre.length + j - pre.length = j := by omega
  have e2 : pre.length + j + 1 - pre.length = j + 1 := by omega
  have e3 : pre.length + j + 2 - pre.length = j + 2 := by omega
  have e4 : pre.length + j + 3 - pre.length = j + 3 := by omega
  rw [e1, e2, e3, e4]

theorem iterFrameIdxAux_append_shift (pre tail : List Nat) :
    ∀ fuel j, tail.length - j ≤ fuel →
      iterFrameIdxAux (pre ++ tail) (pre.length + j) =
        (iterFrameIdxAux tail j).map (fun s => (pre.length + s.1, s.2)) := by
  intro fuel
  induction fuel with
  | zero =>
    intro j h
    have h1 : ¬ j + 4 ≤ tail.length := by omega
    have h1' : ¬ pre.length + j + 4 ≤ (pre ++ tail).length := by
      rw [List.length_append]; omega
    rw [iterFrameIdxAux, dif_neg h1']
    rw [iterFrameIdxAux, dif_neg h1, List.map_nil]
  | succ n ih =>
    intro j h
    have hlen : (pre ++ tail).length = pre.length + tail.length := List.length_append pre tail
    have hread : readLE32 (pre ++ tail) (pre.length + j) = readLE32 tail j :=
      readLE32_append pre tail j
    by_cases h1 : j + 4 ≤ tail.length
    · have h1' : pre.length + j + 4 ≤ (pre ++ tail).length := by omega
      by_cases h2 : readLE32 tail j ≤ 0 ∨ j + (4 + readLE32 tail j) > tail.length
      · have h2' : readLE32 (pre ++ tail) (pre.length + j) ≤ 0 ∨
            pre.length + j + (4 + readLE32 (pre ++ tail) (pre.length + j)) >
              (pre ++ tail).length := by
          rw [hread]; omega
        rw [iterFrameIdxAux, dif_pos h1', dif_pos h2']
        rw [iterFrameIdxAux, dif_pos h1, dif_pos h2, List.map_nil]
      · have h2' : ¬ (readLE32 (pre ++ tail) (pre.length + j) ≤ 0 ∨
            pre.length + j + (4 + readLE32 (pre ++ tail) (pre.length + j)) >
              (pre ++ tail).length) := by
          rw [hread]; omega
        rw [iterFrameIdxAux, dif_pos h1', dif_neg h2']
        conv_rhs => rw [iterFrameIdxAux]
        rw [dif_pos h1, dif_neg h2, List.map_cons]
        rw [hread]
        have harith : pre.length + j + (4 + readLE32 tail j) =
            pre.length + (j + (4 + readLE32 tail j)) := by omega
        rw [harith, ih (j + (4 + readLE32 tail j)) (by omega)]
    · have h1' : ¬ pre.length + j + 4 ≤ (pre ++ tail).length := by omega
      rw [iterFrameIdxAux, dif_neg h1']
      rw [iterFrameIdxAux, dif_neg h1, List.map_nil]

theorem iterFrameIdx_partial (rest : List Nat) (h : IsPartialFrame rest) :
    iterFrameIdx rest = [] := by
  rw [iterFrameIdx, iterFrameIdxAux]
  rcases h with h | ⟨hpos, hover⟩
  · rw [dif_neg (by omega)]
  · by_cases h1 : 0 + 4 ≤ rest.length
    · rw [dif_pos h1]
      have h0 : readLE32 rest 0 = readLE32 rest (0 + 0) := by norm_num
      rw [dif_pos (by right; omega)]
    · rw [dif_neg h1]

theorem iterFrameIdx_frame_cons (p tail : List Nat) (hne : p ≠ [])
    (hlt : p.length < 4294967296) :
    iterFrameIdx (encodeFrame p ++ tail) =
      (0, 4 + p.length) ::
        (iterFrameIdx tail).map (fun s => ((4 + p.length) + s.1, s.2)) := by
  have hplen : 0 < p.length := List.length_pos.mpr hne
  have hassoc : encodeFrame p ++ tail = toLE32 p.length ++ (p ++ tail) := by
    rw [encodeFrame, List.append_assoc]
  have hread : readLE32 (encodeFrame p ++ tail) 0 = p.length := by
    rw [hassoc]; exact readLE32_toLE32 p.length (p ++ tail) hlt
  have hlen : (encodeFrame p ++ tail).length = 4 + p.length + tail.length := by
    rw [encodeFrame]
    simp [toLE32]
    omega
  rw [iterFrameIdx, iterFrameIdxAux]
  rw [dif_pos (by omega)]
  have hzero : readLE32 (encodeFrame p ++ tail) (0 : Nat) = p.length := hread
  rw [dif_neg (by rw [hzero]; push_neg; constructor <;> omega)]
  rw [hzero]
  have hpre : (encodeFrame p).length = 4 + p.length := by
    rw [encodeFrame]; simp [toLE32]; omega
  have hstart : (0 : Nat) + (4 + p.length) = (encodeFrame p).length + 0 := by omega
  rw [hstart, iterFrameIdxAux_append_shift (encodeFrame p) tail tail.length 0 (by omega)]
  rw [iterFrameIdx, hpre]

theorem frameOffsets_map_shift (c : Nat) (ps : List (List Nat)) :
    ∀ s, (frameOffsets s ps).map (fun x => (c + x.1, x.2)) = frameOffsets (c + s) ps := by
  induction ps with
  | nil => intro s; rfl
  | cons p rest ih =>
    intro s
    rw [frameOffsets, frameOffsets, List.map_cons, ih (s + (4 + p.length))]
    have : c + (s + (4 + p.length)) = c + s + (4 + p.length) := by omega
    rw [this]

theorem iterFrameIdx_wellFormed_layout (ps : List (List Nat)) (rest : List Nat)
    (hps : ∀ p ∈ ps, p ≠ [] ∧ p.length < 4294967296 ∧ ∀ b ∈ p, b < 256)
    (hrest : IsPartialFrame rest) :
    iterFrameIdx (encodeFrames ps ++ rest) = frameOffsets 0 ps := by
  induction ps with
  | nil =>
    rw [encodeFrames, List.map_nil, List.flatten_nil, List.nil_append]
    exact iterFrameIdx_partial rest hrest
  | cons p t ih =>
    have hp := hps p (by simp)
    have ht : ∀ q ∈ t, q ≠ [] ∧ q.length < 4294967296 ∧ ∀ b ∈ q, b < 256 := by
      intro q hq; exact hps q (by simp [hq])
    have hsplit : encodeFrames (p :: t) ++ rest = encodeFrame p ++ (encodeFrames t ++ rest) := by
      rw [encodeFrames, List.map_cons, List.flatten_cons, List.append_assoc, encodeFrames]
    rw [hsplit, iterFrameIdx_frame_cons p (encodeFrames t ++ rest) hp.1 hp.2.1]
    rw [ih ht, frameOffsets_map_shift (4 + p.length) t 0, frameOffsets]
    have : (0 : Nat) + (4 + p.length) = 4 + p.length + 0 := by omega
    rw [this]

theorem contiguousFrom_frameOffsets (ps : List (List Nat)) :
    ∀ s, contiguousFrom s (frameOffsets s ps) = true := by
  induction ps with
  | nil => intro s; rfl
  | cons p t ih =>
    intro s
    rw [frameOffsets, contiguousFrom]
    simp only [decide_eq_true_eq, Bool.and_eq_true]
    exact ⟨⟨by simp, by simp⟩, ih (s + (4 + p.length))⟩

theorem frameOffsets_sum_lengths (ps : List (List Nat)) :
    ∀ s, ((frameOffsets s ps).map (fun x => x.2)).sum = (encodeFrames ps).length := by
  induction ps with
  | nil => intro s; rfl
  | cons p t ih =>
    intro s
    rw [frameOffsets, List.map_cons, List.sum_cons, ih (s + (4 + p.length))]
    simp [encodeFrames, encodeFrame, toLE32]
    omega

/-- C5 counterexample: the file `[5, 0, 0, 0]` is well formed per the
claim (zero complete frames followed by a partial trailing frame whose
intact header declares a 5-byte payload that overruns the end of the
file), yet the indexer yields nothing, so the unindexed trailing
remainder is the whole 4-byte file and is not shorter than a minimal
frame header. -/
theorem iterFrameIdx_trailing_remainder_cex :
    WellFormed [5, 0, 0, 0] ∧ iterFrameIdx [5, 0, 0, 0] = [] ∧
      ¬ (([5, 0, 0, 0] : List Nat).length -
          ((iterFrameIdx [5, 0, 0, 0]).map (fun x => x.2)).sum < 4) := by
  have hempty : iterFrameIdx [5, 0, 0, 0] = [] := by
    simp [iterFrameIdx, iterFrameIdxAux, readLE32]
  refine ⟨⟨[], [5, 0, 0, 0], by simp, by decide, by unfold IsPartialFrame; decide, rfl⟩, hempty, ?_⟩
  rw [hempty]
  decide

/-- C5 (amended): for every well-formed capture file (zero or more
complete frames from offset 0, optionally followed by a partial
trailing frame), the indexer's yielded slices are contiguous and
non-overlapping starting at offset 0, they cover an initial segment of
the file, and the single unindexed trailing remainder is exactly the
partial trailing frame: it is either shorter than a minimal 4-byte
frame header, or an incomplete trailing frame whose intact header
declares a positive payload length overrunning the end of the file.
(The original claim that the remainder is always shorter than 4 bytes
fails: see the counterexample.) -/
theorem iterFrameIdx_tiles_wellFormed (content : List Nat) (h : WellFormed content) :
    contiguousFrom 0 (iterFrameIdx content) = true ∧
      ((iterFrameIdx content).map (fun x => x.2)).sum ≤ content.length ∧
      IsPartialFrame (content.drop (((iterFrameIdx content).map (fun x => x.2)).sum)) := by
  obtain ⟨ps, rest, hps, hbytes, hrest, hcontent⟩ := h
  subst hcontent
  rw [iterFrameIdx_wellFormed_layout ps rest hps hrest]
  refine ⟨contiguousFrom_frameOffsets ps 0, ?_, ?_⟩
  · rw [frameOffsets_sum_lengths ps 0, List.length_append]
    omega
  · rw [frameOffsets_sum_lengths ps 0, List.drop_left]
    exact hrest

/-- Witness for the amended tiling theorem at a concrete file: one
complete frame with a 5-byte payload followed by 2 stray bytes. -/
theorem iterFrameIdx_tiles_wellFormed_witness :
    WellFormed [5, 0, 0, 0, 9, 9, 9, 9, 9, 1, 2] ∧
      (contiguousFrom 0 (iterFrameIdx [5, 0, 0, 0, 9, 9, 9, 9, 9, 1, 2]) = true ∧
        ((iterFrameIdx [5, 0, 0, 0, 9, 9, 9, 9, 9, 1, 2]).map (fun x => x.2)).sum ≤
          ([5, 0, 0, 0, 9, 9, 9, 9, 9, 1, 2] : List Nat).length ∧
        IsPartialFrame (([5, 0, 0, 0, 9, 9, 9, 9, 9, 1, 2] : List Nat).drop
          (((iterFrameIdx [5, 0, 0, 0, 9, 9, 9, 9, 9, 1, 2]).map (fun x => x.2)).sum))) := by
  have hwf : WellFormed [5, 0, 0, 0, 9, 9, 9, 9, 9, 1, 2] :=
    ⟨[[9, 9, 9, 9, 9]], [1, 2], by decide, by decide, by unfold IsPartialFrame; decide, by decide⟩
  exact ⟨hwf, iterFrameIdx_tiles_wellFormed _ hwf⟩

/-! The foreign decoded record, numpy array semantics, and the
assembler `__libpicoFrameToNdarray` with its `__removeInterp` helper. -/

/-- A numpy ndarray along the leading (tone) axis: `rows` is the data,
`foreignView` records whether the backing memory is the foreign
DecodedFrame's memory (an `np.ctypeslib.as_array` view) or fresh
Python-owned memory. -/
structure NpArr (ρ : Type) where
  foreignView : Bool
  rows : List ρ
deriving DecidableEq, Repr

/-- The foreign `LibpicoRaw` record produced by the decoder: nanosecond
timestamp, per-tone rows of the real and imaginary CSI tensors, the
magnitude and phase tensors, and the subcarrier index labels. The
trailing `(tx, rx, streams)` axes of each tensor are flattened into the
inner lists; scalars are abstract in `α`. -/
structure LibpicoRaw (α : Type) where
  systemTime : Nat
  csiReal : List (List α)
  csiImag : List (List α)
  magnitude : List (List α)
  phase : List (List α)
  subcarrierIndices : List Int
deriving DecidableEq, Repr

/-- `np.ctypeslib.as_array(ptr, shape)`: a view aliasing the foreign
memory, no copy. -/
def npCtypeslibAsArray (rows : List ρ) : NpArr ρ :=
  ⟨true, rows⟩

/-- The elementwise combination `realNp + 1j * imgNp`: numpy allocates
a fresh Python-owned result array; a complex scalar is modelled as the
pair (real part, imaginary part). -/
def npComplexAdd (a b : NpArr (List α)) : NpArr (List (α × α)) :=
  ⟨false, List.zipWith (fun r i => List.zipWith (fun x y => (x, y)) r i) a.rows b.rows⟩

/-- `ndarray.copy()`: a fresh Python-owned array with the same data. -/
def npCopy (a : NpArr ρ) : NpArr ρ :=
  ⟨false, a.rows⟩

/-- Fancy (integer-array) indexing `a[idx]` along the leading axis: it
always produces a fresh Python-owned array; `none` models the
IndexError raised when a position is out of bounds. -/
def npFancyIndex (a : NpArr ρ) (idx : List Nat) : Option (NpArr ρ) :=
  (idx.mapM (fun i => a.rows[i]?)).map (fun rs => ⟨false, rs⟩)

/-- The assembler's sentinel constant `__interpSubcarrierIdx`,
`np.array([-1, 0, 1])`. -/
def interpSubcarrierIdx : List Int := [-1, 0, 1]

/-- Embedding of `PicoParser.__removeInterp`: compute the positions
whose subcarrier label is not in the sentinel set
(`np.nonzero(~np.isin(subcarrierIdx, __interpSubcarrierIdx))[0]`), then
select those rows of the tensor by fancy indexing. -/
def removeInterp (csi : NpArr ρ) (subcarrierIdx : List Int) : Option (NpArr ρ) :=
  npFancyIndex csi
    ((subcarrierIdx.enum.filter (fun p => !(interpSubcarrierIdx.contains p.2))).map Prod.fst)

/-- The assembler's output record (`FrameNdarray` dataclass): capture
timestamp and the csi, magnitude and phase tensors. -/
structure FrameNdarray (α : Type) where
  tstamp : Nat
  csi : NpArr (List (α × α))
  mag : NpArr (List α)
  phase : NpArr (List α)
deriving DecidableEq, Repr

/-- Embedding of `PicoParser.__libpicoFrameToNdarray`: build foreign
views of the four tensors, combine real and imaginary parts into the
complex csi tensor; if `interp` is false remove the interpolated
subcarrier rows from each tensor, otherwise deep-copy each tensor out
of the foreign views. `none` models a raised numpy error. -/
def libpicoFrameToNdarray (raw : LibpicoRaw α) (interp : Bool) : Option (FrameNdarray α) :=
  let csiNp := npComplexAdd (npCtypeslibAsArray raw.csiReal) (npCtypeslibAsArray raw.csiImag)
  let magNp := npCtypeslibAsArray raw.magnitude
  let phaseNp := npCtypeslibAsArray raw.phase
  if interp then
    some ⟨raw.systemTime, npCopy csiNp, npCopy magNp, npCopy phaseNp⟩
  else
    match removeInterp csiNp raw.subcarrierIndices,
        removeInterp magNp raw.subcarrierIndices,
        removeInterp phaseNp raw.subcarrierIndices with
    | some csiF, some magF, some phaseF => some ⟨raw.systemTime, csiF, magF, phaseF⟩
    | _, _, _ => none

/-- Spec-side description of interpolation removal: pair each tensor
row with its subcarrier label and keep exactly the rows whose label is
not in the sentinel set. -/
def manualSentinelFilter (subcarrierIdx : List Int) (rows : List ρ) : List ρ :=
  ((subcarrierIdx.zip rows).filter (fun p => !(interpSubcarrierIdx.contains p.1))).map Prod.snd

theorem mapM_filter_positions (keep : Int → Bool) :
    ∀ (subIdx : List Int) (front rows : List ρ), subIdx.length ≤ rows.length →
      (((subIdx.enumFrom front.length).filter (fun p => keep p.2)).map Prod.fst).mapM
          (fun i => (front ++ rows)[i]?) =
        some (((subIdx.zip rows).filter (fun p => keep p.1)).map Prod.snd) := by
  intro subIdx
  induction subIdx with
  | nil => intro front rows h; rfl
  | cons x xs ih =>
    intro front rows h
    match rows with
    | [] => simp at h
    | r :: rows' =>
      have hxs : xs.length ≤ rows'.length := by
        simp at h; omega
      have hhead : (front ++ r :: rows')[front.length]? = some r := by
        rw [List.getElem?_append_right (by omega)]
        simp
      have hih := ih (front ++ [r]) rows' hxs
      rw [List.append_assoc, List.singleton_append] at hih
      have hlen1 : (front ++ [r]).length = front.length + 1 := by simp
      rw [hlen1] at hih
      rw [List.enumFrom_cons, List.zip_cons_cons, List.filter_cons, List.filter_cons]
      cases hkx : keep x with
      | true =>
        simp only [hkx, if_true, List.map_cons, List.mapM_cons, hhead]
        rw [hih]
        simp
      | false =>
        simp only [hkx, Bool.false_eq_true, if_false]
        exact hih

theorem removeInterp_eq_manualFilter (a : NpArr ρ) (subIdx : List Int)
    (h : subIdx.length ≤ a.rows.length) :
    removeInterp a subIdx = some ⟨false, manualSentinelFilter subIdx a.rows⟩ := by
  rw [removeInterp, npFancyIndex, manualSentinelFilter, List.enum_eq_enumFrom]
  have hmain := mapM_filter_positions (fun v => !(interpSubcarrierIdx.contains v))
    subIdx [] a.rows h
  simp only [List.length_nil, List.nil_append] at hmain
  rw [hmain]
  rfl

theorem manualSentinelFilter_length_le (subIdx : List Int) (rows : List ρ) :
    (manualSentinelFilter subIdx rows).length ≤ rows.length := by
  rw [manualSentinelFilter]
  simp only [List.length_map]
  exact le_trans (List.length_filter_le _ _)
    (by rw [List.length_zip]; exact min_le_right _ _)

/-- C4: for every well-formed decoded frame (all four tensors and the
subcarrier label array share the tone dimension `n`), assembly with
`interp = false` is a strict filter of assembly with `interp = true`:
both succeed, each `interp = false` tensor equals the corresponding
`interp = true` tensor after selecting exactly the rows whose
subcarrier index label is not in the sentinel set `{-1, 0, 1}`, and the
resulting tone dimension is at most the original one. -/
theorem assembleNoInterp_filters_assembleInterp (raw : LibpicoRaw α) (n : Nat)
    (hre : raw.csiReal.length = n) (him : raw.csiImag.length = n)
    (hmag : raw.magnitude.length = n) (hph : raw.phase.length = n)
    (hsub : raw.subcarrierIndices.length = n) :
    ∃ rT rF, libpicoFrameToNdarray raw true = some rT ∧
      libpicoFrameToNdarray raw false = some rF ∧
      rF.csi.rows = manualSentinelFilter raw.subcarrierIndices rT.csi.rows ∧
      rF.mag.rows = manualSentinelFilter raw.subcarrierIndices rT.mag.rows ∧
      rF.phase.rows = manualSentinelFilter raw.subcarrierIndices rT.phase.rows ∧
      rF.csi.rows.length ≤ rT.csi.rows.length ∧
      rF.mag.rows.length ≤ rT.mag.rows.length ∧
      rF.phase.rows.length ≤ rT.phase.rows.length := by
  have hlenC : (npComplexAdd (npCtypeslibAsArray raw.csiReal)
      (npCtypeslibAsArray raw.csiImag)).rows.length = n := by
    simp [npComplexAdd, npCtypeslibAsArray, hre, him]
  have hC := removeInterp_eq_manualFilter
    (npComplexAdd (npCtypeslibAsArray raw.csiReal) (npCtypeslibAsArray raw.csiImag))
    raw.subcarrierIndices (by simp [hlenC, hsub])
  have hM := removeInterp_eq_manualFilter (npCtypeslibAsArray raw.magnitude)
    raw.subcarrierIndices (by simp [npCtypeslibAsArray, hmag, hsub])
  have hP := removeInterp_eq_manualFilter (npCtypeslibAsArray raw.phase)
    raw.subcarrierIndices (by simp [npCtypeslibAsArray, hph, hsub])
  refine ⟨⟨raw.systemTime,
      npCopy (npComplexAdd (npCtypeslibAsArray raw.csiReal) (npCtypeslibAsArray raw.csiImag)),
      npCopy (npCtypeslibAsArray raw.magnitude), npCopy (npCtypeslibAsArray raw.phase)⟩,
    ⟨raw.systemTime,
      ⟨false, manualSentinelFilter raw.subcarrierIndices
        (npComplexAdd (npCtypeslibAsArray raw.csiReal) (npCtypeslibAsArray raw.csiImag)).rows⟩,
      ⟨false, manualSentinelFilter raw.subcarrierIndices raw.magnitude⟩,
      ⟨false, manualSentinelFilter raw.subcarrierIndices raw.phase⟩⟩,
    ?_, ?_, ?_, ?_, ?_, ?_, ?_, ?_⟩
  · simp [libpicoFrameToNdarray]
  · simp only [libpicoFrameToNdarray, Bool.false_eq_true, if_false]
    rw [hC, hM, hP]
    simp [npCtypeslibAsArray]
  · simp [npCopy]
  · simp [npCopy, npCtypeslibAsArray]
  · simp [npCopy, npCtypeslibAsArray]
  · exact manualSentinelFilter_length_le _ _
  · exact manualSentinelFilter_length_le _ _
  · exact manualSentinelFilter_length_le _ _

theorem removeInterp_foreignView (a : NpArr ρ) (s : List Int) (b : NpArr ρ)
    (h : removeInterp a s = some b) : b.foreignView = false := by
  rw [removeInterp, npFancyIndex] at h
  rcases Option.map_eq_some'.mp h with ⟨rs, _, hb⟩
  rw [← hb]

/-- C10: for every decoded frame and for both values of `interp`, every
tensor in a successfully assembled `FrameNdarray` is backed by fresh
Python-owned memory rather than a foreign-memory view: all tensor data
is copied out of the foreign `DecodedFrame` before the release call, so
no returned tensor aliases foreign memory past the release point. -/
theorem libpicoFrameToNdarray_no_foreign_alias (raw : LibpicoRaw α) (interp : Bool)
    (r : FrameNdarray α) (h : libpicoFrameToNdarray raw interp = some r) :
    r.csi.foreignView = false ∧ r.mag.foreignView = false ∧ r.phase.foreignView = false := by
  cases interp with
  | true =>
    simp [libpicoFrameToNdarray] at h
    rw [← h]
    exact ⟨rfl, rfl, rfl⟩
  | false =>
    simp only [libpicoFrameToNdarray, if_false, Bool.false_eq_true] at h
    cases hA : removeInterp (npComplexAdd (npCtypeslibAsArray raw.csiReal)
        (npCtypeslibAsArray raw.csiImag)) raw.subcarrierIndices with
    | none => rw [hA] at h; simp at h
    | some csiF =>
      cases hB : removeInterp (npCtypeslibAsArray raw.magnitude) raw.subcarrierIndices with
      | none => rw [hA, hB] at h; simp at h
      | some magF =>
        cases hD : removeInterp (npCtypeslibAsArray raw.phase) raw.subcarrierIndices with
        | none => rw [hA, hB, hD] at h; simp at h
        | some phaseF =>
          rw [hA, hB, hD] at h
          simp at h
          rw [← h]
          exact ⟨removeInterp_foreignView _ _ _ hA, removeInterp_foreignView _ _ _ hB,
            removeInterp_foreignView _ _ _ hD⟩

/-- Witness for the no-foreign-alias theorem at a concrete one-tone
frame assembled with `interp = true`. -/
theorem libpicoFrameToNdarray_no_foreign_alias_witness :
    (⟨7, ⟨false, [[((1 : Int), (2 : Int))]]⟩, ⟨false, [[(3 : Int)]]⟩,
        ⟨false, [[(4 : Int)]]⟩⟩ : FrameNdarray Int).csi.foreignView = false ∧
      (⟨7, ⟨false, [[((1 : Int), (2 : Int))]]⟩, ⟨false, [[(3 : Int)]]⟩,
        ⟨false, [[(4 : Int)]]⟩⟩ : FrameNdarray Int).mag.foreignView = false ∧
      (⟨7, ⟨false, [[((1 : Int), (2 : Int))]]⟩, ⟨false, [[(3 : Int)]]⟩,
        ⟨false, [[(4 : Int)]]⟩⟩ : FrameNdarray Int).phase.foreignView = false :=
  libpicoFrameToNdarray_no_foreign_alias ⟨7, [[1]], [[2]], [[3]], [[4]], [0]⟩ true _ rfl

/-- Witness for the interpolation-filter theorem at a concrete
three-tone frame whose labels are `[-1, 5, 0]` (only the middle row is
physical). -/
theorem assembleNoInterp_filters_assembleInterp_witness :
    ∃ rT rF,
      libpicoFrameToNdarray
          (⟨100, [[1], [2], [3]], [[4], [5], [6]], [[10], [11], [12]],
            [[20], [21], [22]], [-1, 5, 0]⟩ : LibpicoRaw Int) true = some rT ∧
      libpicoFrameToNdarray
          (⟨100, [[1], [2], [3]], [[4], [5], [6]], [[10], [11], [12]],
            [[20], [21], [22]], [-1, 5, 0]⟩ : LibpicoRaw Int) false = some rF ∧
      rF.csi.rows = manualSentinelFilter [-1, 5, 0] rT.csi.rows ∧
      rF.mag.rows = manualSentinelFilter [-1, 5, 0] rT.mag.rows ∧
      rF.phase.rows = manualSentinelFilter [-1, 5, 0] rT.phase.rows ∧
      rF.csi.rows.length ≤ rT.csi.rows.length ∧
      rF.mag.rows.length ≤ rT.mag.rows.length ∧
      rF.phase.rows.length ≤ rT.phase.rows.length :=
  assembleNoInterp_filters_assembleInterp
    ⟨100, [[1], [2], [3]], [[4], [5], [6]], [[10], [11], [12]], [[20], [21], [22]], [-1, 5, 0]⟩
    3 rfl rfl rfl rfl rfl

/-! The per-frame decode-and-assemble task `__getFrameNdarray`, with the
foreign calls it makes recorded as an event trace. -/

/-- One observable foreign call of a decode-and-assemble task; the
`free` event records the boolean the foreign release call returned. -/
inductive LibpicoCall
  | getFrame
  | free (result : Bool)
deriving DecidableEq, Repr

/-- The ways one per-frame task can fail: the foreign decode call
reports the frame as malformed (the raised foreign-call error), or the
conversion step raises a numpy error. -/
inductive TaskError (ε : Type)
  | decodeFailed (e : ε)
  | convertFailed
deriving DecidableEq, Repr

/-- Embedding of `PicoParser.__getFrameNdarray` for one slice: call the
foreign decode (`getLibpicoFrameFromBuffer` over the slice's buffer,
abstracted as `decode`), convert the decoded record via
`__libpicoFrameToNdarray`, then call `freeLibpicoFrame` (whose reported
boolean is `freeOk`) and return the record. The Python body has no
try/finally: a decode failure raises before any foreign record exists,
a conversion error raises before the release line runs, so the trace
holds a `free` event only on the successful path, and the boolean the
release call returns is bound nowhere. -/
def getFrameNdarrayTask (decode : Nat × Nat → Except ε (LibpicoRaw α)) (interp freeOk : Bool)
    (frameIdx : Nat × Nat) : List LibpicoCall × Except (TaskError ε) (FrameNdarray α) :=
  match decode frameIdx with
  | .error e => ([.getFrame], .error (.decodeFailed e))
  | .ok raw =>
    match libpicoFrameToNdarray raw interp with
    | none => ([.getFrame], .error .convertFailed)
    | some r => ([.getFrame, .free freeOk], .ok r)

/-- Number of `free` events in a task's call trace. -/
def freeCallCount (calls : List LibpicoCall) : Nat :=
  calls.countP (fun c => match c with | .free _ => true | _ => false)

/-- C3 counterexample: a decoded frame whose subcarrier label array is
longer than its tensors makes the conversion step raise (numpy
IndexError on the fancy index); the task propagates that error and its
call trace holds no `free` event, so the foreign record is never
released on the conversion-error exit path. -/
theorem free_skipped_on_convert_error_cex :
    (getFrameNdarrayTask
        (fun _ => (Except.ok (⟨0, [], [], [], [], [5]⟩ : LibpicoRaw Int) :
          Except Unit (LibpicoRaw Int))) false true (0, 5)).2 =
      Except.error TaskError.convertFailed ∧
    freeCallCount (getFrameNdarrayTask
        (fun _ => (Except.ok (⟨0, [], [], [], [], [5]⟩ : LibpicoRaw Int) :
          Except Unit (LibpicoRaw Int))) false true (0, 5)).1 = 0 :=
  ⟨rfl, rfl⟩

/-- C3 (amended): in `__getFrameNdarray` the foreign `DecodedFrame` is
released exactly once on the successful exit path; but when the
decode or conversion step raises, the exception propagates before the
release line, so no release call happens on error paths. (The original
claim that the release happens on every exit path, including conversion
failure, fails: see the counterexample.) -/
theorem free_called_once_iff_success (decode : Nat × Nat → Except ε (LibpicoRaw α))
    (interp freeOk : Bool) (s : Nat × Nat) :
    (∀ r, (getFrameNdarrayTask decode interp freeOk s).2 = Except.ok r →
      freeCallCount (getFrameNdarrayTask decode interp freeOk s).1 = 1) ∧
    (∀ e, (getFrameNdarrayTask decode interp freeOk s).2 = Except.error e →
      freeCallCount (getFrameNdarrayTask decode interp freeOk s).1 = 0) := by
  rcases hd : decode s with e | raw
  · constructor
    · intro r hr
      rw [getFrameNdarrayTask, hd] at hr
      cases hr
    · intro e' he
      simp [getFrameNdarrayTask, hd, freeCallCount]
  · rcases hc : libpicoFrameToNdarray raw interp with _ | r
    · constructor
      · intro r hr
        rw [getFrameNdarrayTask, hd] at hr
        simp only [hc] at hr
        cases hr
      · intro e' he
        simp [getFrameNdarrayTask, hd, hc, freeCallCount]
    · constructor
      · intro r' hr
        simp [getFrameNdarrayTask, hd, hc, freeCallCount]
      · intro e' he
        rw [getFrameNdarrayTask, hd] at he
        simp only [hc] at he
        cases he

/-- Witness for the release-on-success theorem at a concrete
successfully decoded frame. -/
theorem free_called_once_iff_success_witness :
    freeCallCount (getFrameNdarrayTask
        (fun _ => (Except.ok (⟨7, [[1]], [[2]], [[3]], [[4]], [0]⟩ : LibpicoRaw Int) :
          Except Unit (LibpicoRaw Int))) true true (0, 4)).1 = 1 :=
  (free_called_once_iff_success
    (fun _ => (Except.ok (⟨7, [[1]], [[2]], [[3]], [[4]], [0]⟩ : LibpicoRaw Int) :
      Except Unit (LibpicoRaw Int))) true true (0, 4)).1
    ⟨7, ⟨false, [[(1, 2)]]⟩, ⟨false, [[3]]⟩, ⟨false, [[4]]⟩⟩ rfl

/-- C8 counterexample: at a concrete frame, the task's caller-visible
outcome when the foreign release call reports failure is a plain
successful record, identical to the outcome when the release reports
success — the reported release failure leaves no caller-visible trace
at all, so it is not surfaced. -/
theorem freeResult_failure_silent_cex :
    (getFrameNdarrayTask
        (fun _ => (Except.ok (⟨9, [[5]], [[6]], [[7]], [[8]], [1]⟩ : LibpicoRaw Int) :
          Except Unit (LibpicoRaw Int))) true false (0, 4)).2 =
      Except.ok ⟨9, ⟨false, [[(5, 6)]]⟩, ⟨false, [[7]]⟩, ⟨false, [[8]]⟩⟩ ∧
    (getFrameNdarrayTask
        (fun _ => (Except.ok (⟨9, [[5]], [[6]], [[7]], [[8]], [1]⟩ : LibpicoRaw Int) :
          Except Unit (LibpicoRaw Int))) true false (0, 4)).2 =
      (getFrameNdarrayTask
        (fun _ => (Except.ok (⟨9, [[5]], [[6]], [[7]], [[8]], [1]⟩ : LibpicoRaw Int) :
          Except Unit (LibpicoRaw Int))) true true (0, 4)).2 :=
  ⟨rfl, rfl⟩

/-- C8 (amended): the boolean result of `freeLibpicoFrame` is bound to
nothing in `__getFrameNdarray` and discarded: for every decoder, slice
and interpolation flag, the caller-visible outcome of the task is the
same whether the foreign release call reports failure or success, so a
reported release failure is silently ignored rather than surfaced. -/
theorem freeResult_ignored (decode : Nat × Nat → Except ε (LibpicoRaw α)) (interp : Bool)
    (s : Nat × Nat) :
    (getFrameNdarrayTask decode interp false s).2 =
      (getFrameNdarrayTask decode interp true s).2 := by
  rcases hd : decode s with e | raw
  · simp [getFrameNdarrayTask, hd]
  · rcases hc : libpicoFrameToNdarray raw interp with _ | r <;>
      simp [getFrameNdarrayTask, hd, hc]

/-! Consuming the pipeline's results in order, as the aggregation loop
in `getNdarray` does. -/

/-- Consuming the iterator returned by `getFrameNdarrayByIndices` in
submission order: each task's outcome is taken in turn and the first
failed task's error propagates to the consumer, ending the iteration. -/
def consumeFrameResults (decode : Nat × Nat → Except ε (LibpicoRaw α)) (interp freeOk : Bool)
    (slices : List (Nat × Nat)) : Except (TaskError ε) (List (FrameNdarray α)) :=
  slices.mapM (fun s => (getFrameNdarrayTask decode interp freeOk s).2)

/-- C6 counterexample: a two-slice batch whose first frame the foreign
decoder rejects and whose second frame decodes fine. Consuming the
pipeline yields only the first frame's error: the successfully decoded
sibling record is reported nowhere, so per-frame failures are not
collected and reported alongside the successes, and the error is the
raw foreign-call error rather than a dedicated frame-decode error type
carrying the slice. -/
theorem failures_not_collected_cex :
    consumeFrameResults
        (fun s => if s.1 = 0 then Except.error ()
          else (Except.ok (⟨0, [], [], [], [], []⟩ : LibpicoRaw Int) :
            Except Unit (LibpicoRaw Int))) true true [(0, 5), (5, 6)] =
      Except.error (TaskError.decodeFailed ()) ∧
    (getFrameNdarrayTask
        (fun s => if s.1 = 0 then Except.error ()
          else (Except.ok (⟨0, [], [], [], [], []⟩ : LibpicoRaw Int) :
            Except Unit (LibpicoRaw Int))) true true (5, 6)).2 =
      Except.ok ⟨0, ⟨false, []⟩, ⟨false, []⟩, ⟨false, []⟩⟩ :=
  ⟨rfl, rfl⟩

/-- C6 (amended): when the foreign decoder reports one frame of a batch
as malformed, exactly that frame's task fails, with the raised
foreign-call error; sibling tasks are unaffected (each task's outcome
depends only on the decoder's behaviour at its own slice); but
consuming the result iterator propagates the first failing frame's
error and ends the iteration, so failures abort the consumption of the
batch at that point instead of being collected and reported alongside
the successfully decoded frames. -/
theorem first_failure_aborts_consumption (decode : Nat × Nat → Except ε (LibpicoRaw α))
    (interp freeOk : Bool) (pre : List (Nat × Nat)) (bad : Nat × Nat)
    (post : List (Nat × Nat)) (e : TaskError ε)
    (hpre : ∀ s ∈ pre, ∃ r, (getFrameNdarrayTask decode interp freeOk s).2 = Except.ok r)
    (hbad : (getFrameNdarrayTask decode interp freeOk bad).2 = Except.error e) :
    consumeFrameResults decode interp freeOk (pre ++ bad :: post) = Except.error e ∧
    (∀ (decode' : Nat × Nat → Except ε (LibpicoRaw α)) (s : Nat × Nat),
      decode' s = decode s →
      getFrameNdarrayTask decode' interp freeOk s =
        getFrameNdarrayTask decode interp freeOk s) := by
  constructor
  · induction pre with
    | nil =>
      rw [List.nil_append, consumeFrameResults, List.mapM_cons, hbad]
      rfl
    | cons hd tl ih =>
      have hhd := hpre hd (by simp)
      rcases hhd with ⟨r, hr⟩
      have htl : ∀ s ∈ tl, ∃ r, (getFrameNdarrayTask decode interp freeOk s).2 = Except.ok r :=
        fun s hs => hpre s (by simp [hs])
      have ihtl := ih htl
      rw [List.cons_append, consumeFrameResults, List.mapM_cons, hr]
      rw [consumeFrameResults] at ihtl
      rw [ihtl]
      rfl
  · intro decode' s hs
    rw [getFrameNdarrayTask, getFrameNdarrayTask, hs]

/-- Witness for the abort-at-first-failure theorem at a concrete batch:
one successful frame, then a malformed frame, then a further slice. -/
theorem first_failure_aborts_consumption_witness :
    consumeFrameResults
        (fun s => if s.1 = 4 then Except.error 3
          else (Except.ok (⟨1, [], [], [], [], []⟩ : LibpicoRaw Int) :
            Except Nat (LibpicoRaw Int))) true true [(0, 4), (4, 6), (10, 4)] =
      Except.error (TaskError.decodeFailed 3) ∧
    (∀ (decode' : Nat × Nat → Except Nat (LibpicoRaw Int)) (s : Nat × Nat),
      decode' s = (fun s => if s.1 = 4 then Except.error 3
          else (Except.ok (⟨1, [], [], [], [], []⟩ : LibpicoRaw Int) :
            Except Nat (LibpicoRaw Int))) s →
      getFrameNdarrayTask decode' true true s =
        getFrameNdarrayTask (fun s => if s.1 = 4 then Except.error 3
          else (Except.ok (⟨1, [], [], [], [], []⟩ : LibpicoRaw Int) :
            Except Nat (LibpicoRaw Int))) true true s) :=
  first_failure_aborts_consumption
    (fun s => if s.1 = 4 then Except.error 3
      else (Except.ok (⟨1, [], [], [], [], []⟩ : LibpicoRaw Int) :
        Except Nat (LibpicoRaw Int))) true true [(0, 4)] (4, 6) [(10, 4)]
    (TaskError.decodeFailed 3)
    (fun s hs => by
      rcases List.mem_singleton.mp hs with rfl
      exact ⟨⟨1, ⟨false, []⟩, ⟨false, []⟩, ⟨false, []⟩⟩, rfl⟩)
    rfl

/-! The bounded thread pool of `getFrameNdarrayByIndices`:
`executor.map` submits one indexed task per slice, the pool completes
them in an arbitrary order, and the returned iterator yields results in
submission order. -/

/-- The submitted task list of `executor.map`: one indexed task per
input, carrying the per-frame function's result. -/
def poolTasks (f : σ → β) (inputs : List σ) : List (Nat × β) :=
  inputs.enum.map (fun p => (p.1, f p.2))

/-- Reading one result slot: the completed task carrying index `i`. -/
def slotGet (completed : List (Nat × β)) (i : Nat) : Option β :=
  (completed.find? (fun p => p.1 == i)).map (fun p => p.2)

/-- The iterator of `executor.map` consumed in submission order: the
`i`-th yielded element is the result of the task with index `i`,
whatever order `completed` lists the pool's finished tasks in. -/
def collectResults (completed : List (Nat × β)) (n : Nat) : List (Option β) :=
  (List.range n).map (slotGet completed)

theorem find?_key_unique (i : Nat) (b : β) :
    ∀ l : List (Nat × β), (l.map Prod.fst).Nodup → (i, b) ∈ l →
      l.find? (fun p => p.1 == i) = some (i, b) := by
  intro l
  induction l with
  | nil => intro _ hm; cases hm
  | cons hd tl ih =>
    intro hn hm
    rw [List.map_cons, List.nodup_cons] at hn
    rcases List.mem_cons.mp hm with heq | htl
    · rw [List.find?_cons, ← heq]
      simp
    · have hk : hd.1 ≠ i := by
        intro hcontra
        exact hn.1 (hcontra ▸ List.mem_map.mpr ⟨(i, b), htl, rfl⟩)
      have hfalse : (hd.1 == i) = false := by
        simp [hk]
      rw [List.find?_cons, hfalse]
      exact ih hn.2 htl

theorem poolTasks_keys (f : σ → β) (inputs : List σ) :
    (poolTasks f inputs).map Prod.fst = List.range inputs.length := by
  rw [poolTasks, List.map_map]
  have hcomp : (Prod.fst ∘ fun p : Nat × σ => (p.1, f p.2)) = Prod.fst := rfl
  rw [hcomp, List.enum_map_fst]

theorem poolTasks_mem (f : σ → β) (inputs : List σ) (i : Nat) (hi : i < inputs.length) :
    (i, f inputs[i]) ∈ poolTasks f inputs := by
  have hlen : i < (poolTasks f inputs).length := by
    rw [poolTasks, List.length_map, List.enum_length]
    exact hi
  have hget : (poolTasks f inputs)[i] = (i, f inputs[i]) := by
    simp only [poolTasks, List.getElem_map, List.getElem_enum]
  rw [← hget]
  exact List.getElem_mem hlen

theorem collectResults_perm_poolTasks (f : σ → β) (inputs : List σ)
    (completed : List (Nat × β)) (h : completed.Perm (poolTasks f inputs)) :
    collectResults completed inputs.length = inputs.map (fun a => some (f a)) := by
  have hnodup : (completed.map Prod.fst).Nodup := by
    rw [(h.map Prod.fst).nodup_iff, poolTasks_keys]
    exact List.nodup_range inputs.length
  apply List.ext_getElem
  · rw [collectResults, List.length_map, List.length_range, List.length_map]
  · intro k h1 h2
    have hk : k < inputs.length := by
      rw [collectResults, List.length_map, List.length_range] at h1
      exact h1
    simp only [collectResults, List.getElem_map, List.getElem_range]
    have hmem : (k, f inputs[k]) ∈ completed :=
      h.mem_iff.mpr (poolTasks_mem f inputs k hk)
    rw [slotGet, find?_key_unique k (f inputs[k]) completed hnodup hmem]
    rfl

/-- C2: the concurrent decode pipeline preserves input order. For every
abstract decoder, every slice list, and every completion order of the
pool's submitted tasks (hence for every worker count), reading the
iterator of `executor.map` in submission order yields exactly the
sequential map of the per-frame decode-and-assemble task over the input
slices. -/
theorem getFrameNdarrayByIndices_ordered (decode : Nat × Nat → Except ε (LibpicoRaw α))
    (interp freeOk : Bool) (slices : List (Nat × Nat))
    (completed : List (Nat × (List LibpicoCall × Except (TaskError ε) (FrameNdarray α))))
    (h : completed.Perm (poolTasks (getFrameNdarrayTask decode interp freeOk) slices)) :
    collectResults completed slices.length =
      slices.map (fun s => some (getFrameNdarrayTask decode interp freeOk s)) :=
  collectResults_perm_poolTasks _ slices completed h

/-- Witness for the order-preservation theorem: two slices whose tasks
complete in reversed order still read back in submission order. -/
theorem getFrameNdarrayByIndices_ordered_witness :
    collectResults
        ((poolTasks
          (getFrameNdarrayTask
            (fun _ => (Except.ok (⟨2, [[1]], [[1]], [[1]], [[1]], [2]⟩ : LibpicoRaw Int) :
              Except Unit (LibpicoRaw Int))) true true)
          [(0, 16), (16, 16)]).reverse) ([(0, 16), (16, 16)] : List (Nat × Nat)).length =
      [(0, 16), (16, 16)].map (fun s => some (getFrameNdarrayTask
        (fun _ => (Except.ok (⟨2, [[1]], [[1]], [[1]], [[1]], [2]⟩ : LibpicoRaw Int) :
          Except Unit (LibpicoRaw Int))) true true s)) :=
  getFrameNdarrayByIndices_ordered
    (fun _ => (Except.ok (⟨2, [[1]], [[1]], [[1]], [[1]], [2]⟩ : LibpicoRaw Int) :
      Except Unit (LibpicoRaw Int))) true true [(0, 16), (16, 16)] _
    (List.reverse_perm _)

/-! The aggregator `getNdarray`: whole-file arrays for the requested
fields, stacked with `np.array` along a new leading frame axis. -/

/-- Aggregation failure: the array library's error for a list of
per-frame arrays that do not form one rectangular block (differing
shapes, or ragged rows). -/
inductive AggError
  | inconsistentShape
deriving DecidableEq, Repr

/-- The shape descriptor of a tone-major tensor: the outer (tone)
length together with the inner row lengths. -/
def tensorShape (t : NpArr (List ρ)) : Nat × List Nat :=
  (t.rows.length, t.rows.map List.length)

/-- Rows form a rectangular block: all inner lengths agree. -/
def isRegularRows : List (List ρ) → Bool
  | [] => true
  | r :: rest => rest.all (fun q => decide (q.length = r.length))

/-- All tensors of the list share one shape descriptor. -/
def shapesAllEq : List (NpArr (List ρ)) → Bool
  | [] => true
  | t :: rest => rest.all (fun u => decide (tensorShape u = tensorShape t))

/-- Whether `np.array` succeeds on a list of per-frame tensors: each is
rectangular and all share an identical shape. -/
def stackable (ts : List (NpArr (List ρ))) : Bool :=
  ts.all (fun t => isRegularRows t.rows) && shapesAllEq ts

/-- `np.array(tensorList)`: stacks the per-frame tensors along a new
leading (frame) axis, in list order, when they form one rectangular
block; otherwise raises the inhomogeneous-shape error. -/
def npStack (ts : List (NpArr (List ρ))) : Except AggError (List (List (List ρ))) :=
  if stackable ts then Except.ok (ts.map (fun t => t.rows))
  else Except.error AggError.inconsistentShape

/-- One field of `getNdarray`: `np.array(fieldList) if enableField else
None`. -/
def aggField (enable : Bool) (ts : List (NpArr (List ρ))) :
    Except AggError (Option (List (List (List ρ)))) :=
  if enable then (npStack ts).map Option.some else Except.ok none

/-- The tuple `getNdarray` returns: one optional whole-file array per
field. -/
structure AggResult (α : Type) where
  tstamp : Option (List Nat)
  csi : Option (List (List (List (α × α))))
  mag : Option (List (List (List α)))
  phase : Option (List (List (List α)))
deriving DecidableEq, Repr

/-- Embedding of `PicoParser.getNdarray`'s aggregation over an already
decoded record sequence: build each per-field list only when the field
is requested, run `np.array` on the requested fields in source order
(the timestamp array always succeeds), and return `None` for fields not
requested. -/
def getNdarray (frames : List (FrameNdarray α))
    (enableTs enableCsi enableMag enablePhase : Bool) : Except AggError (AggResult α) :=
  match aggField enableCsi (if enableCsi then frames.map (fun fr => fr.csi) else []) with
  | .error e => .error e
  | .ok csi =>
    match aggField enableMag (if enableMag then frames.map (fun fr => fr.mag) else []) with
    | .error e => .error e
    | .ok mag =>
      match aggField enablePhase (if enablePhase then frames.map (fun fr => fr.phase) else []) with
      | .error e => .error e
      | .ok phase =>
        .ok ⟨if enableTs then some (frames.map (fun fr => fr.tstamp)) else none, csi, mag, phase⟩

theorem aggField_false (ts : List (NpArr (List ρ))) : aggField false ts = Except.ok none :=
  rfl

theorem aggField_true_stackable (ts : List (NpArr (List ρ))) (h : stackable ts = true) :
    aggField true ts = Except.ok (some (ts.map (fun t => t.rows))) := by
  rw [aggField, if_pos rfl, npStack, if_pos h]
  rfl

theorem aggField_ok_stackable (ts : List (NpArr (List ρ)))
    (o : Option (List (List (List ρ)))) (h : aggField true ts = Except.ok o) :
    stackable ts = true := by
  by_cases hs : stackable ts = true
  · exact hs
  · rw [aggField, if_pos rfl, npStack, if_neg hs] at h
    cases h

theorem shapesAllEq_eq (ts : List (NpArr (List ρ))) (h : shapesAllEq ts = true)
    (t u : NpArr (List ρ)) (ht : t ∈ ts) (hu : u ∈ ts) : tensorShape t = tensorShape u := by
  cases ts with
  | nil => cases ht
  | cons hd tl =>
    rw [shapesAllEq] at h
    have hall := List.all_eq_true.mp h
    rcases List.mem_cons.mp ht with rfl | ht'
    · rcases List.mem_cons.mp hu with rfl | hu'
      · rfl
      · exact (of_decide_eq_true (hall u hu')).symm
    · rcases List.mem_cons.mp hu with rfl | hu'
      · exact of_decide_eq_true (hall t ht')
      · rw [of_decide_eq_true (hall t ht'), of_decide_eq_true (hall u hu')]

theorem stackable_shapesAllEq (ts : List (NpArr (List ρ))) (h : stackable ts = true) :
    shapesAllEq ts = true := by
  rw [stackable, Bool.and_eq_true] at h
  exact h.2

/-- C7: whenever two records of the batch have tensors of differing
shape for some requested field, the aggregation call fails with the
inconsistent-shape error; and whenever, for each requested field, the
per-frame tensors are rectangular and share one identical shape, the
aggregation succeeds and stacks each requested field along a new
leading frame axis in record order (unrequested fields stay absent). -/
theorem getNdarray_shape_contract (frames : List (FrameNdarray α))
    (enableTs enableCsi enableMag enablePhase : Bool) :
    ((∃ t ∈ frames, ∃ u ∈ frames,
        (enableCsi = true ∧ tensorShape t.csi ≠ tensorShape u.csi) ∨
        (enableMag = true ∧ tensorShape t.mag ≠ tensorShape u.mag) ∨
        (enablePhase = true ∧ tensorShape t.phase ≠ tensorShape u.phase)) →
      getNdarray frames enableTs enableCsi enableMag enablePhase =
        Except.error AggError.inconsistentShape) ∧
    ((enableCsi = true → stackable (frames.map (fun fr => fr.csi)) = true) →
      (enableMag = true → stackable (frames.map (fun fr => fr.mag)) = true) →
      (enablePhase = true → stackable (frames.map (fun fr => fr.phase)) = true) →
      getNdarray frames enableTs enableCsi enableMag enablePhase =
        Except.ok ⟨if enableTs then some (frames.map (fun fr => fr.tstamp)) else none,
          if enableCsi then some (frames.map (fun fr => fr.csi.rows)) else none,
          if enableMag then some (frames.map (fun fr => fr.mag.rows)) else none,
          if enablePhase then some (frames.map (fun fr => fr.phase.rows)) else none⟩) := by
  constructor
  · rintro ⟨t, ht, u, hu, hdis⟩
    cases hres : getNdarray frames enableTs enableCsi enableMag enablePhase with
    | error e => cases e; rfl
    | ok r =>
      exfalso
      rw [getNdarray] at hres
      cases h1 : aggField enableCsi (if enableCsi then frames.map (fun fr => fr.csi) else [])
        with
      | error e1 => rw [h1] at hres; cases hres
      | ok o1 =>
        rw [h1] at hres
        cases h2 : aggField enableMag (if enableMag then frames.map (fun fr => fr.mag) else [])
          with
        | error e2 => rw [h2] at hres; cases hres
        | ok o2 =>
          rw [h2] at hres
          cases h3 : aggField enablePhase
              (if enablePhase then frames.map (fun fr => fr.phase) else []) with
          | error e3 => rw [h3] at hres; cases hres
          | ok o3 =>
            rcases hdis with ⟨hen, hneq⟩ | ⟨hen, hneq⟩ | ⟨hen, hneq⟩
            · subst hen
              rw [if_pos rfl] at h1
              have hst := stackable_shapesAllEq _ (aggField_ok_stackable _ _ h1)
              exact hneq (shapesAllEq_eq _ hst t.csi u.csi
                (List.mem_map.mpr ⟨t, ht, rfl⟩) (List.mem_map.mpr ⟨u, hu, rfl⟩))
            · subst hen
              rw [if_pos rfl] at h2
              have hst := stackable_shapesAllEq _ (aggField_ok_stackable _ _ h2)
              exact hneq (shapesAllEq_eq _ hst t.mag u.mag
                (List.mem_map.mpr ⟨t, ht, rfl⟩) (List.mem_map.mpr ⟨u, hu, rfl⟩))
            · subst hen
              rw [if_pos rfl] at h3
              have hst := stackable_shapesAllEq _ (aggField_ok_stackable _ _ h3)
              exact hneq (shapesAllEq_eq _ hst t.phase u.phase
                (List.mem_map.mpr ⟨t, ht, rfl⟩) (List.mem_map.mpr ⟨u, hu, rfl⟩))
  · intro hcsi hmag hph
    have hc : aggField enableCsi (if enableCsi then frames.map (fun fr => fr.csi) else []) =
        Except.ok (if enableCsi then some (frames.map (fun fr => fr.csi.rows)) else none) := by
      cases enableCsi
      · rfl
      · rw [if_pos rfl, if_pos rfl, aggField_true_stackable _ (hcsi rfl), List.map_map]
        rfl
    have hm : aggField enableMag (if enableMag then frames.map (fun fr => fr.mag) else []) =
        Except.ok (if enableMag then some (frames.map (fun fr => fr.mag.rows)) else none) := by
      cases enableMag
      · rfl
      · rw [if_pos rfl, if_pos rfl, aggField_true_stackable _ (hmag rfl), List.map_map]
        rfl
    have hp : aggField enablePhase
        (if enablePhase then frames.map (fun fr => fr.phase) else []) =
        Except.ok (if enablePhase then some (frames.map (fun fr => fr.phase.rows)) else none) := by
      cases enablePhase
      · rfl
      · rw [if_pos rfl, if_pos rfl, aggField_true_stackable _ (hph rfl), List.map_map]
        rfl
    rw [getNdarray, hc, hm, hp]

/-- Witness for the aggregation shape contract: a two-record batch with
mismatched magnitude shapes fails, and a single-record batch with
consistent shapes stacks every requested field in order. -/
theorem getNdarray_shape_contract_witness :
    getNdarray ([⟨1, ⟨false, [[(1, 1)]]⟩, ⟨false, [[1]]⟩, ⟨false, [[1]]⟩⟩,
        ⟨2, ⟨false, [[(2, 2)]]⟩, ⟨false, []⟩, ⟨false, [[2]]⟩⟩] : List (FrameNdarray Int))
        true true true true = Except.error AggError.inconsistentShape ∧
    getNdarray ([⟨1, ⟨false, [[(1, 1)]]⟩, ⟨false, [[1]]⟩, ⟨false, [[1]]⟩⟩] :
        List (FrameNdarray Int)) true true true true =
      Except.ok ⟨some [1], some [[[(1, 1)]]], some [[[1]]], some [[[1]]]⟩ :=
  ⟨(getNdarray_shape_contract _ true true true true).1
      ⟨⟨1, ⟨false, [[(1, 1)]]⟩, ⟨false, [[1]]⟩, ⟨false, [[1]]⟩⟩, by decide,
        ⟨2, ⟨false, [[(2, 2)]]⟩, ⟨false, []⟩, ⟨false, [[2]]⟩⟩, by decide,
        Or.inr (Or.inl ⟨rfl, by decide⟩)⟩,
    (getNdarray_shape_contract _ true true true true).2
      (fun _ => by decide) (fun _ => by decide) (fun _ => by decide)⟩

/-- Replace the fields a given aggregation call does not request with
junk values, keeping the requested fields. -/
def scrubFrame (enableTs enableCsi enableMag enablePhase : Bool) (fr : FrameNdarray α) :
    FrameNdarray α :=
  ⟨if enableTs then fr.tstamp else 0,
    if enableCsi then fr.csi else ⟨true, []⟩,
    if enableMag then fr.mag else ⟨true, []⟩,
    if enablePhase then fr.phase else ⟨true, []⟩⟩

/-- C9: fields not requested are returned as absent and their
whole-file arrays are not computed: the aggregation's outcome is
unchanged when every unrequested field of every input record is
replaced by junk (so no unrequested field's data ever flows into the
result), and on success each unrequested field of the result is
`none`. -/
theorem getNdarray_unrequested_absent (frames : List (FrameNdarray α))
    (enableTs enableCsi enableMag enablePhase : Bool) :
    getNdarray (frames.map (scrubFrame enableTs enableCsi enableMag enablePhase))
        enableTs enableCsi enableMag enablePhase =
      getNdarray frames enableTs enableCsi enableMag enablePhase ∧
    (∀ r, getNdarray frames enableTs enableCsi enableMag enablePhase = Except.ok r →
      (enableTs = false → r.tstamp = none) ∧ (enableCsi = false → r.csi = none) ∧
      (enableMag = false → r.mag = none) ∧ (enablePhase = false → r.phase = none)) := by
  constructor
  · have hts : (if enableTs then
        some ((frames.map (scrubFrame enableTs enableCsi enableMag enablePhase)).map
          (fun fr => fr.tstamp)) else none) =
        (if enableTs then some (frames.map (fun fr => fr.tstamp)) else none) := by
      cases enableTs
      · rfl
      · rw [if_pos rfl, if_pos rfl, List.map_map]
        cases enableCsi <;> cases enableMag <;> cases enablePhase <;> rfl
    have hcs : (if enableCsi then
        (frames.map (scrubFrame enableTs enableCsi enableMag enablePhase)).map
          (fun fr => fr.csi) else []) =
        (if enableCsi then frames.map (fun fr => fr.csi) else []) := by
      cases enableCsi
      · rfl
      · rw [if_pos rfl, if_pos rfl, List.map_map]
        cases enableTs <;> cases enableMag <;> cases enablePhase <;> rfl
    have hmg : (if enableMag then
        (frames.map (scrubFrame enableTs enableCsi enableMag enablePhase)).map
          (fun fr => fr.mag) else []) =
        (if enableMag then frames.map (fun fr => fr.mag) else []) := by
      cases enableMag
      · rfl
      · rw [if_pos rfl, if_pos rfl, List.map_map]
        cases enableTs <;> cases enableCsi <;> cases enablePhase <;> rfl
    have hph : (if enablePhase then
        (frames.map (scrubFrame enableTs enableCsi enableMag enablePhase)).map
          (fun fr => fr.phase) else []) =
        (if enablePhase then frames.map (fun fr => fr.phase) else []) := by
      cases enablePhase
      · rfl
      · rw [if_pos rfl, if_pos rfl, List.map_map]
        cases enableTs <;> cases enableCsi <;> cases enableMag <;> rfl
    simp only [getNdarray, hts, hcs, hmg, hph]
  · intro r hres
    rw [getNdarray] at hres
    cases h1 : aggField enableCsi (if enableCsi then frames.map (fun fr => fr.csi) else [])
      with
    | error e1 => rw [h1] at hres; cases hres
    | ok o1 =>
      rw [h1] at hres
      cases h2 : aggField enableMag (if enableMag then frames.map (fun fr => fr.mag) else [])
        with
      | error e2 => rw [h2] at hres; cases hres
      | ok o2 =>
        rw [h2] at hres
        cases h3 : aggField enablePhase
            (if enablePhase then frames.map (fun fr => fr.phase) else []) with
        | error e3 => rw [h3] at hres; cases hres
        | ok o3 =>
          rw [h3] at hres
          have hr := (Except.ok.inj hres).symm
          subst hr
          refine ⟨?_, ?_, ?_, ?_⟩
          · intro hfalse; subst hfalse; rfl
          · intro hfalse; subst hfalse
            rw [aggField_false] at h1
            exact (Except.ok.inj h1).symm
          · intro hfalse; subst hfalse
            rw [aggField_false] at h2
            exact (Except.ok.inj h2).symm
          · intro hfalse; subst hfalse
            rw [aggField_false] at h3
            exact (Except.ok.inj h3).symm

/-- Witness for the unrequested-fields theorem: a one-record batch
aggregated with only timestamp and magnitude requested; scrubbing the
csi and phase data does not change the outcome, and the returned csi
and phase arrays are absent. -/
theorem getNdarray_unrequested_absent_witness :
    getNdarray (([⟨3, ⟨false, [[(1, 1)]]⟩, ⟨false, [[2]]⟩, ⟨false, [[3]]⟩⟩] :
          List (FrameNdarray Int)).map (scrubFrame true false true false))
        true false true false =
      getNdarray ([⟨3, ⟨false, [[(1, 1)]]⟩, ⟨false, [[2]]⟩, ⟨false, [[3]]⟩⟩] :
        List (FrameNdarray Int)) true false true false ∧
    ((⟨some [3], none, some [[[2]]], none⟩ : AggResult Int).csi = none ∧
      (⟨some [3], none, some [[[2]]], none⟩ : AggResult Int).phase = none) :=
  ⟨(getNdarray_unrequested_absent
      [⟨3, ⟨false, [[(1, 1)]]⟩, ⟨false, [[2]]⟩, ⟨false, [[3]]⟩⟩] true false true false).1,
    ((getNdarray_unrequested_absent
        [⟨3, ⟨false, [[(1, 1)]]⟩, ⟨false, [[2]]⟩, ⟨false, [[3]]⟩⟩] true false true false).2
      ⟨some [3], none, some [[[2]]], none⟩ rfl).2.1 rfl,
    ((getNdarray_unrequested_absent
        [⟨3, ⟨false, [[(1, 1)]]⟩, ⟨false, [[2]]⟩, ⟨false, [[3]]⟩⟩] true false true false).2
      ⟨some [3], none, some [[[2]]], none⟩ rfl).2.2.2 rfl⟩

end PicoParser
